import Mathlib

/-! # Timer: tick strategies, recurring timer and single-shot scheduler

A shallow embedding of `src/Timer.hpp` / `src/Timer.cpp` (namespace `timer`).

Conventions of the embedding

* `unsigned` is a 32-bit machine integer: an `unsigned` value is a `Nat` below `2 ^ 32` and
  arithmetic carried out in `unsigned` is reduced modulo `2 ^ 32`.
* `long long` values (clock readings, deadlines, sleeping times) are `Int`.  Signed overflow is
  undefined behaviour in C++ and is not part of the model: the theorems are about executions in
  which the clock readings, the deadlines and their sums and differences fit in 64 bits.
* The clock (`std::chrono::high_resolution_clock::now()`) is an input: every function that reads
  the clock receives the reading as an argument.
* `std::map<long long, std::list<std::function<void()>>>` is an association list kept in
  ascending key order; `begin()` is the head of the list.
* A callback `std::function<void()>` is a value of an arbitrary type `κ` together with an
  interpretation `invoke : κ → σ → σ × Option ε` on an external world `σ`: the callback changes
  the world and either returns (`none`) or raises (`some e`).
* Threads are not run.  A thread handle records whether it is joinable, and the scheduler state
  records what its worker is blocked on.  A pass of the scheduler loop and a call of
  `SingleShotTimer::call` are steps of one sequence: they do not overlap.
* `static SingleShotTimer instance` is local to the function template `call<Functor>`, so each
  callable type the template is instantiated with has its own instance.  `SingleShotTimer` below
  is one such instance; `Process` holds all of them.
-/

namespace timer

/-! ## Machine integers -/

/-- Number of values of the C++ type `unsigned`. -/
def unsignedRange : Nat := 2 ^ 32

/-- The expression `1000 * intervalMillis_` with `intervalMillis_` of type `unsigned`: the `int`
constant is converted to `unsigned` and the product is computed in `unsigned`; the result is then
converted to `long long`. -/
def thousandTimes (intervalMillis : Nat) : Int :=
  ((1000 * intervalMillis % unsignedRange : Nat) : Int)

/-! ## `ConstTimeBetweenTicks` -/

/-- Data members of `ConstTimeBetweenTicks` other than the callback: `unsigned intervalMillis_`
and `long long sleepingTime` (microseconds). -/
structure ConstTimeBetweenTicks where
  intervalMillis_ : Nat
  sleepingTime : Int
  deriving DecidableEq

/-- Constructor `ConstTimeBetweenTicks(unsigned intervalMillis, callback)`:
`intervalMillis_(intervalMillis), sleepingTime(1000 * intervalMillis_)`. -/
def ConstTimeBetweenTicks.new (intervalMillis : Nat) : ConstTimeBetweenTicks :=
  { intervalMillis_ := intervalMillis, sleepingTime := thousandTimes intervalMillis }

/-- One run of `ConstTimeBetweenTicks::operator()` in which the callback returns.
`wakeupTime` is the clock reading (microseconds) taken after the sleep and before the callback,
`endTime` the reading taken after the callback. -/
def ConstTimeBetweenTicks.operatorCall (wakeupTime endTime : Int)
    (t : ConstTimeBetweenTicks) : ConstTimeBetweenTicks :=
  let processingTime : Int := endTime - wakeupTime
  let intervalMicros : Int := thousandTimes t.intervalMillis_
  { t with sleepingTime :=
      if processingTime ≥ intervalMicros then 0 else intervalMicros - processingTime }

/-- Successive runs of `operator()`, one per pair of clock readings (the loop of the worker
thread of `Timer`). -/
def ConstTimeBetweenTicks.ticks (readings : List (Int × Int))
    (t : ConstTimeBetweenTicks) : ConstTimeBetweenTicks :=
  readings.foldl (fun acc r => acc.operatorCall r.1 r.2) t

/-! ## `Timer` -/

/-- What stops the process. -/
inductive Fault where
  /-- Call of `std::terminate` by the move assignment of `std::thread` onto a joinable
  thread. -/
  | terminateOnAssign
  /-- Exception `std::system_error` thrown by `std::thread::join` on a thread that is not
  joinable; it leaves the destructor. -/
  | joinNotJoinable
  deriving DecidableEq

/-- Data members of `Timer` other than the tick behaviour and the mutex.  `worker_` is `none` for
a `std::thread` that is not joinable (default constructed) and `some i` for a joinable handle of
the `i`-th thread spawned.  `spawned` counts the threads spawned so far. -/
structure Timer where
  isRunning_ : Bool
  worker_ : Option Nat
  spawned : Nat
  deriving DecidableEq

/-- Constructors of `Timer`.  Neither initialises `bool isRunning_`, so its value is
indeterminate and is a parameter here; `worker_` is default constructed. -/
def Timer.new (indeterminate : Bool) : Timer :=
  { isRunning_ := indeterminate, worker_ := none, spawned := 0 }

/-- Member `Timer::start`. -/
def Timer.start (t : Timer) : Except Fault Timer :=
  if t.isRunning_ then
    .ok t
  else
    -- isRunning_ = true; the temporary std::thread spawns the worker
    let t1 : Timer := { t with isRunning_ := true, spawned := t.spawned + 1 }
    -- worker_ = std::move(temporary)
    match t1.worker_ with
    | some _ => .error .terminateOnAssign
    | none => .ok { t1 with worker_ := some t.spawned }

/-- Member `Timer::stop`. -/
def Timer.stop (t : Timer) : Timer :=
  { t with isRunning_ := false }

/-- Member `Timer::reset`. -/
def Timer.reset (t : Timer) : Timer := t

/-- Destructor `Timer::~Timer`: `isRunning_ = false; worker_.join();`.  The result is the state
in which the object is released. -/
def Timer.destroy (t : Timer) : Except Fault Timer :=
  let t1 : Timer := { t with isRunning_ := false }
  match t1.worker_ with
  | none => .error .joinNotJoinable
  | some _ => .ok { t1 with worker_ := none }

/-! ## `SingleShotTimer` (the class of `Timer.hpp`) -/

/-- Member `std::map::insert` for a map kept as an ascending association list: the pair is put
at its place in key order, and nothing is done when the key is already present. -/
def mapInsert {β : Type} (k : Int) (v : β) : List (Int × β) → List (Int × β)
  | [] => [(k, v)]
  | (k', v') :: rest =>
    if k < k' then (k, v) :: (k', v') :: rest
    else if k = k' then (k', v') :: rest
    else (k', v') :: mapInsert k v rest

/-- What the worker thread of the scheduler is doing. -/
inductive WorkerState where
  /-- Executing the loop body of `run`. -/
  | running
  /-- Blocked in `monitor_.wait(lock)` (function `sleep`). -/
  | waitingOnMonitor
  /-- Blocked in `std::this_thread::sleep_for` (function `sleepFor`) until the clock shows
  `wakeAt`. -/
  | sleepingUntil (wakeAt : Int)
  deriving DecidableEq

/-- Result of running a piece of the scheduler. -/
inductive Outcome (α ε : Type) where
  /-- The code returned in state `s`. -/
  | returned (s : α)
  /-- Exception `e` left the code; `s` is the state at that moment. -/
  | raised (e : ε) (s : α)
  /-- The code dereferenced `begin()` of an empty map. -/
  | undefinedBehaviour
  deriving DecidableEq

/-- State of the scheduler.  `callbacks_` and `isRunning_` are the data members;
`workerState` is the state of the thread `worker_`; `world` is the external world the callbacks
act on and `invoked` lists the callbacks whose invocation has begun, oldest first. -/
structure SingleShotTimer (κ σ : Type) where
  callbacks_ : List (Int × List κ)
  isRunning_ : Bool
  workerState : WorkerState
  world : σ
  invoked : List κ
  deriving DecidableEq

namespace SingleShotTimer

variable {κ σ ε : Type}

/-- The function-local `static SingleShotTimer instance` of one specialisation of `call`, right
after its construction: empty map, `isRunning_ = true`, worker thread started. -/
def staticInstance (w : σ) : SingleShotTimer κ σ :=
  { callbacks_ := [], isRunning_ := true, workerState := .running, world := w, invoked := [] }

/-- Member `wakeUp`: `monitor_.notify_all()` unblocks the threads waiting on `monitor_` and has
no effect on any other thread. -/
def wakeUp (s : SingleShotTimer κ σ) : SingleShotTimer κ σ :=
  match s.workerState with
  | .waitingOnMonitor => { s with workerState := .running }
  | _ => s

/-- Member `sleep`: the worker blocks in `monitor_.wait(lock)`. -/
def sleep (s : SingleShotTimer κ σ) : SingleShotTimer κ σ :=
  { s with workerState := .waitingOnMonitor }

/-- Member `sleepFor` called at clock reading `now`: the worker blocks in
`std::this_thread::sleep_for(milliseconds(millis))`. -/
def sleepFor (now millis : Int) (s : SingleShotTimer κ σ) : SingleShotTimer κ σ :=
  { s with workerState := .sleepingUntil (now + millis) }

/-- Body of the static member `SingleShotTimer::call(long long waitForMillis, callback)` applied
to the instance `s` of the specialisation that is called, with `currentMillis` the clock
reading. -/
def call (currentMillis waitForMillis : Int) (callback : κ)
    (s : SingleShotTimer κ σ) : SingleShotTimer κ σ :=
  wakeUp { s with
    callbacks_ := mapInsert (currentMillis + waitForMillis) [callback] s.callbacks_ }

/-- Member `shouldCallbacksBeCalled`, with `currentMillis` the clock reading. -/
def shouldCallbacksBeCalled (currentMillis : Int) (s : SingleShotTimer κ σ) : Bool :=
  match s.callbacks_ with
  | element :: _ => decide (element.1 ≤ currentMillis)
  | [] => false

/-- The range-based `for` of `processCurrentCalbacks`: invoke the callbacks one after the other
from world `w`.  The result is the world reached, the callbacks whose invocation began, and the
exception that ended the loop, if any. -/
def invokeEach (invoke : κ → σ → σ × Option ε) : List κ → σ → σ × List κ × Option ε
  | [], w => (w, [], none)
  | callback :: rest, w =>
    match invoke callback w with
    | (w', some e) => (w', [callback], some e)
    | (w', none) =>
      let r := invokeEach invoke rest w'
      (r.1, callback :: r.2.1, r.2.2)

/-- Member `processCurrentCalbacks`. -/
def processCurrentCalbacks (invoke : κ → σ → σ × Option ε)
    (s : SingleShotTimer κ σ) : Outcome (SingleShotTimer κ σ) ε :=
  match s.callbacks_ with
  | [] => .undefinedBehaviour
  | first :: rest =>
    let r := invokeEach invoke first.2 s.world
    let s1 : SingleShotTimer κ σ := { s with world := r.1, invoked := s.invoked ++ r.2.1 }
    match r.2.2 with
    | some e => .raised e s1
    | none => .returned { s1 with callbacks_ := rest }

/-- One pass through the body of the `while` loop of `run`.  `t₁` is the clock reading taken in
`shouldCallbacksBeCalled`, `t₂` the one taken before `sleepFor`. -/
def runBody (invoke : κ → σ → σ × Option ε) (t₁ t₂ : Int)
    (s : SingleShotTimer κ σ) : Outcome (SingleShotTimer κ σ) ε :=
  let afterProcessing : Outcome (SingleShotTimer κ σ) ε :=
    if shouldCallbacksBeCalled t₁ s then processCurrentCalbacks invoke s else .returned s
  match afterProcessing with
  | .returned s1 =>
    match s1.callbacks_ with
    | [] => .returned (sleep s1)
    | first :: _ =>
      let timeToNextCallback := first.1 - t₂
      .returned (sleepFor t₂ timeToNextCallback s1)
  | other => other

/-- Member `run`: the `while (isRunning_)` loop, one pass per pair of clock readings.  The list
of readings bounds the number of passes. -/
def run (invoke : κ → σ → σ × Option ε) :
    List (Int × Int) → SingleShotTimer κ σ → Outcome (SingleShotTimer κ σ) ε
  | [], s => .returned s
  | (t₁, t₂) :: readings, s =>
    if s.isRunning_ then
      match runBody invoke t₁ t₂ { s with workerState := .running } with
      | .returned s1 => run invoke readings s1
      | other => other
    else .returned s

/-- Successive calls `call(waitForMillis, callback)` through one specialisation of `call`, whose
instance is `s`; each call is given as `(currentMillis, waitForMillis, callback)`. -/
def callAll (requests : List (Int × Int × κ)) (s : SingleShotTimer κ σ) : SingleShotTimer κ σ :=
  requests.foldl (fun acc r => call r.1 r.2.1 r.2.2 acc) s

end SingleShotTimer

/-- The state carried by an outcome, when there is one. -/
def Outcome.state? {α ε : Type} : Outcome α ε → Option α
  | .returned s => some s
  | .raised _ s => some s
  | .undefinedBehaviour => none

/-! ## All instances of `SingleShotTimer` -/

/-- State of the process as far as the scheduler goes.  A value of `τ` stands for a callable
type `Functor` with which the template `call<Functor>` is instantiated.  Each such type has its
own `static SingleShotTimer instance`, with its own mapping and its own worker thread;
`instances f` is `none` until the first call through that specialisation constructs the
instance.  The world and the list of callbacks invoked are those of the process: the fields
`world` and `invoked` of a stored instance are not read, a pass starts from the ones here. -/
structure Process (τ κ σ : Type) where
  instances : τ → Option (SingleShotTimer κ σ)
  world : σ
  invoked : List κ

namespace Process

variable {τ κ σ ε : Type}

/-- The process before any call of `SingleShotTimer::call`. -/
def initial (w : σ) : Process τ κ σ :=
  { instances := fun _ => none, world := w, invoked := [] }

/-- The call `SingleShotTimer::call<functor>(waitForMillis, callback)` at clock reading
`currentMillis`: the first call through a specialisation constructs its instance, and the body
of `call` acts on the instance of that specialisation only. -/
def call [DecidableEq τ] (functor : τ) (currentMillis waitForMillis : Int) (callback : κ)
    (P : Process τ κ σ) : Process τ κ σ :=
  let inst : SingleShotTimer κ σ :=
    match P.instances functor with
    | some s => s
    | none => SingleShotTimer.staticInstance P.world
  { P with instances := fun g =>
      if g = functor then some (SingleShotTimer.call currentMillis waitForMillis callback inst)
      else P.instances g }

/-- Successive calls, each given as `(functor, currentMillis, waitForMillis, callback)`. -/
def calls [DecidableEq τ] (requests : List (τ × Int × Int × κ))
    (P : Process τ κ σ) : Process τ κ σ :=
  requests.foldl (fun acc r => call r.1 r.2.1 r.2.2.1 r.2.2.2 acc) P

/-- The process after a pass of the worker of specialisation `functor` that ended in `s`. -/
def store [DecidableEq τ] (functor : τ) (s : SingleShotTimer κ σ)
    (P : Process τ κ σ) : Process τ κ σ :=
  { instances := fun g => if g = functor then some s else P.instances g
    world := s.world
    invoked := s.invoked }

/-- One pass of the loop of `run` made by the worker thread of the instance of specialisation
`functor`, with clock readings `t₁` and `t₂`. -/
def pass [DecidableEq τ] (invoke : κ → σ → σ × Option ε) (functor : τ) (t₁ t₂ : Int)
    (P : Process τ κ σ) : Outcome (Process τ κ σ) ε :=
  match P.instances functor with
  | none => .returned P
  | some s =>
    match SingleShotTimer.run invoke [(t₁, t₂)]
        { s with world := P.world, invoked := P.invoked } with
    | .returned s1 => .returned (store functor s1 P)
    | .raised e s1 => .raised e (store functor s1 P)
    | .undefinedBehaviour => .undefinedBehaviour

/-- Successive passes, each given as `(functor, t₁, t₂)`: the worker that makes the pass and
its clock readings. -/
def passes [DecidableEq τ] (invoke : κ → σ → σ × Option ε) :
    List (τ × Int × Int) → Process τ κ σ → Outcome (Process τ κ σ) ε
  | [], P => .returned P
  | (functor, t₁, t₂) :: rest, P =>
    match pass invoke functor t₁ t₂ P with
    | .returned P1 => passes invoke rest P1
    | other => other

end Process

/-! ## The program of `main.cpp` and example callbacks -/

/-- Labels of callbacks that print a line and return.  `A`, `B`, `C`, `D` are what the four
lambdas of `main` do, in source order. -/
inductive MainCallback where
  | A | B | C | D
  deriving DecidableEq

/-- Callable types with which `call` is instantiated in the examples.  Each lambda expression
of `main` has a closure type of its own; `stdFunction` is `std::function<void()>`, the type of
callbacks that are passed as `std::function<void()>` objects. -/
inductive Callable where
  | lambda (c : MainCallback)
  | stdFunction
  deriving DecidableEq

/-- The callbacks print a line and return: the world is the list of lines printed, here the
labels themselves. -/
def mainInvoke (c : MainCallback) (w : List MainCallback) :
    List MainCallback × Option Unit :=
  (w ++ [c], none)

/-- A variant in which the callback `bad` throws after printing its line. -/
def mainInvokeRaising (bad : MainCallback) (c : MainCallback) (w : List MainCallback) :
    List MainCallback × Option Unit :=
  (w ++ [c], if c = bad then some () else none)

/-- The four calls of `main`, all made at clock reading `t`: each argument is a lambda
expression, so each call goes through the specialisation of its own closure type. -/
def mainCalls (t : Int) : List (Callable × Int × Int × MainCallback) :=
  [(.lambda .A, t, 3000, .A), (.lambda .B, t, 100, .B), (.lambda .C, t, 300, .C),
   (.lambda .D, t, 10, .D)]

theorem thousandTimes_nonneg (i : Nat) : 0 ≤ thousandTimes i := by
  unfold thousandTimes
  exact Int.ofNat_nonneg _

theorem thousandTimes_le (i : Nat) : thousandTimes i ≤ 1000 * (i : Int) := by
  unfold thousandTimes
  have h : 1000 * i % unsignedRange ≤ 1000 * i := Nat.mod_le _ _
  exact_mod_cast h

theorem thousandTimes_of_small (i : Nat) (h : 1000 * i < unsignedRange) :
    thousandTimes i = 1000 * (i : Int) := by
  unfold thousandTimes
  rw [Nat.mod_eq_of_lt h]
  push_cast
  rfl

theorem operatorCall_intervalMillis (w e : Int) (t : ConstTimeBetweenTicks) :
    (t.operatorCall w e).intervalMillis_ = t.intervalMillis_ := rfl

theorem operatorCall_sleepingTime_nonneg (w e : Int) (t : ConstTimeBetweenTicks) :
    0 ≤ (t.operatorCall w e).sleepingTime := by
  simp only [ConstTimeBetweenTicks.operatorCall]
  split
  · exact le_refl 0
  · omega

theorem ticks_intervalMillis (readings : List (Int × Int)) (t : ConstTimeBetweenTicks) :
    (t.ticks readings).intervalMillis_ = t.intervalMillis_ := by
  induction readings generalizing t with
  | nil => rfl
  | cons r rs ih =>
    simp only [ConstTimeBetweenTicks.ticks, List.foldl_cons] at ih ⊢
    rw [ih]
    rfl

theorem ticks_sleepingTime_nonneg (readings : List (Int × Int)) (t : ConstTimeBetweenTicks)
    (h : 0 ≤ t.sleepingTime) : 0 ≤ (t.ticks readings).sleepingTime := by
  induction readings generalizing t with
  | nil => exact h
  | cons r rs ih =>
    simp only [ConstTimeBetweenTicks.ticks, List.foldl_cons] at ih ⊢
    exact ih _ (operatorCall_sleepingTime_nonneg _ _ _)

/-- In the range where `1000 * intervalMillis_` does not wrap, `operator()` stores
`max 0 (1000 * I - p)`, and for `p < 1000 * I` the next sleep plus `p` is `1000 * I`. -/
theorem operatorCall_sleepingTime_of_small (t : ConstTimeBetweenTicks) (w p : Int)
    (hsmall : 1000 * t.intervalMillis_ < unsignedRange) :
    (t.operatorCall w (w + p)).sleepingTime = max 0 (1000 * (t.intervalMillis_ : Int) - p) ∧
    (p < 1000 * (t.intervalMillis_ : Int) →
      (t.operatorCall w (w + p)).sleepingTime + p = 1000 * (t.intervalMillis_ : Int)) := by
  simp only [ConstTimeBetweenTicks.operatorCall, thousandTimes_of_small _ hsmall]
  constructor
  · split <;> omega
  · intro hp
    split <;> omega

/-- C3 (evaluation at the failing input).  For the interval `I = 4294968` milliseconds, which is
a 32-bit unsigned value, and processing time `p = 0`, `operator()` stores the next sleep `704`
microseconds: the product `1000 * intervalMillis_` is formed in `unsigned` and wraps, both in
the constructor and in `operator()`.  The value `max 0 (1000 * I - p)` is `4294968000`. -/
theorem operatorCall_interval_wraps :
    (4294968 : Nat) < unsignedRange ∧
    (ConstTimeBetweenTicks.new 4294968).sleepingTime = 704 ∧
    ((ConstTimeBetweenTicks.new 4294968).operatorCall 0 0).sleepingTime = 704 ∧
    ((ConstTimeBetweenTicks.new 4294968).operatorCall 0 0).sleepingTime
      ≠ max 0 (1000 * 4294968 - 0) := by
  decide

/-- C5.  For every interval `I`, after any number of earlier ticks with any clock readings, a
tick whose processing time `endTime - wakeupTime` is at least `1000 * I` microseconds stores
the next sleep `0`; and the stored next sleep is never negative: not after construction, and
not after any sequence of ticks. -/
theorem next_sleep_zero_when_slow_and_never_negative (I : Nat) (readings : List (Int × Int))
    (wakeupTime endTime : Int) :
    (1000 * (I : Int) ≤ endTime - wakeupTime →
      (((ConstTimeBetweenTicks.new I).ticks readings).operatorCall
        wakeupTime endTime).sleepingTime = 0) ∧
    0 ≤ (ConstTimeBetweenTicks.new I).sleepingTime ∧
    0 ≤ ((ConstTimeBetweenTicks.new I).ticks readings).sleepingTime ∧
    0 ≤ (((ConstTimeBetweenTicks.new I).ticks readings).operatorCall
        wakeupTime endTime).sleepingTime := by
  refine ⟨?_, thousandTimes_nonneg I, ?_, operatorCall_sleepingTime_nonneg _ _ _⟩
  · intro hp
    have hI : ((ConstTimeBetweenTicks.new I).ticks readings).intervalMillis_ = I :=
      ticks_intervalMillis readings _
    have hle := thousandTimes_le I
    simp only [ConstTimeBetweenTicks.operatorCall, hI]
    rw [if_pos (le_trans hle hp)]
  · exact ticks_sleepingTime_nonneg readings _ (thousandTimes_nonneg I)

/-- C5 at `I = 5`: after a tick that took `100` microseconds, a tick that takes `7000`
microseconds stores the next sleep `0`. -/
theorem next_sleep_zero_when_slow_and_never_negative_witness :
    (1000 * ((5 : Nat) : Int) ≤ 7000 - 0) ∧
    (((ConstTimeBetweenTicks.new 5).ticks [(0, 100)]).operatorCall 0 7000).sleepingTime = 0 :=
  ⟨by decide,
   (next_sleep_zero_when_slow_and_never_negative 5 [(0, 100)] 0 7000).1 (by decide)⟩

/-! ## Facts about `Timer` -/

theorem start_of_running (t : Timer) (h : t.isRunning_ = true) : t.start = .ok t := by
  simp [Timer.start, h]

theorem start_of_stopped_without_worker (t : Timer) (h : t.isRunning_ = false)
    (hw : t.worker_ = none) :
    t.start = .ok { isRunning_ := true, worker_ := some t.spawned, spawned := t.spawned + 1 } := by
  simp [Timer.start, h, hw]

theorem start_of_stopped_with_worker (t : Timer) (h : t.isRunning_ = false) (i : Nat)
    (hw : t.worker_ = some i) : t.start = .error .terminateOnAssign := by
  simp [Timer.start, h, hw]

/-- Two calls of `start` in a row behave as one. -/
theorem start_start (t : Timer) : (t.start >>= Timer.start) = t.start := by
  cases hr : t.isRunning_ with
  | true => rw [start_of_running t hr]; exact start_of_running t hr
  | false =>
    cases hw : t.worker_ with
    | none => rw [start_of_stopped_without_worker t hr hw]; rfl
    | some i => rw [start_of_stopped_with_worker t hr i hw]; rfl

/-- C8 (evaluation at the failing input).  `start(); stop(); start()` on a new timer: the
first `start` sets `isRunning_` and spawns the worker, `stop` clears `isRunning_` and leaves
`worker_` joinable, and the second `start`, entered with `isRunning_ = false`, assigns a new
thread to the joinable `worker_`, which calls `std::terminate`. -/
theorem start_after_stop_terminates :
    (Timer.new false).start = .ok { isRunning_ := true, worker_ := some 0, spawned := 1 } ∧
    (Timer.stop { isRunning_ := true, worker_ := some 0, spawned := 1 }).isRunning_ = false ∧
    (Timer.stop { isRunning_ := true, worker_ := some 0, spawned := 1 }).start
      = .error .terminateOnAssign :=
  ⟨rfl, rfl, rfl⟩

theorem destroy_of_joinable (t : Timer) (i : Nat) (hw : t.worker_ = some i) :
    t.destroy = .ok { isRunning_ := false, worker_ := none, spawned := t.spawned } := by
  simp [Timer.destroy, hw]

/-- C9 (evaluation at the failing input).  A timer that is constructed and destroyed without
`start` in between: `worker_` is not joinable, so `worker_.join()` in the destructor throws,
whatever the indeterminate initial value of `isRunning_`.  Destroying after `start`, and after
`start` followed by `stop`, succeeds. -/
theorem destroy_never_started_fails (indeterminate : Bool) :
    (Timer.new indeterminate).destroy = .error .joinNotJoinable ∧
    ((Timer.new false).start >>= Timer.destroy)
      = .ok { isRunning_ := false, worker_ := none, spawned := 1 } ∧
    ((Timer.new false).start >>= fun t => t.stop.destroy)
      = .ok { isRunning_ := false, worker_ := none, spawned := 1 } := by
  exact ⟨rfl, rfl, rfl⟩

/-! ## Facts about `mapInsert` -/

section MapInsert

variable {β : Type}

/-- Inserting a key that is present changes nothing: `std::map::insert` does not touch the
stored value. -/
theorem mapInsert_of_present (k : Int) (v v₀ : β) (m : List (Int × β))
    (hs : m.Pairwise (fun a b => a.1 < b.1)) (h : (k, v₀) ∈ m) : mapInsert k v m = m := by
  induction m with
  | nil => simp at h
  | cons hd tl ih =>
    obtain ⟨k', v'⟩ := hd
    rw [List.pairwise_cons] at hs
    simp only [mapInsert]
    rcases List.mem_cons.mp h with h | h
    · have hk : k = k' := congrArg Prod.fst h
      simp [hk]
    · have hlt : k' < k := hs.1 _ h
      have h1 : ¬ k < k' := by omega
      have h2 : ¬ k = k' := by omega
      rw [if_neg h1, if_neg h2, ih hs.2 h]

/-- A second insertion under the same key is dropped. -/
theorem mapInsert_twice (k : Int) (v₁ v₂ : β) (m : List (Int × β)) :
    mapInsert k v₂ (mapInsert k v₁ m) = mapInsert k v₁ m := by
  induction m with
  | nil => simp [mapInsert]
  | cons hd tl ih =>
    obtain ⟨k', v'⟩ := hd
    simp only [mapInsert]
    split_ifs with h1 h2
    · simp [mapInsert]
    · simp [mapInsert, h1, h2]
    · simp [mapInsert, h1, h2, ih]

theorem mapInsert_perm_of_absent (k : Int) (v : β) (m : List (Int × β))
    (h : ∀ e ∈ m, e.1 ≠ k) : (mapInsert k v m).Perm ((k, v) :: m) := by
  induction m with
  | nil => simp [mapInsert]
  | cons hd tl ih =>
    obtain ⟨k', v'⟩ := hd
    have hne : k' ≠ k := h (k', v') (List.mem_cons_self _ _)
    simp only [mapInsert]
    split_ifs with h1 h2
    · exact List.Perm.refl _
    · exact absurd h2.symm hne
    · exact ((ih (fun e he => h e (List.mem_cons_of_mem _ he))).cons (k', v')).trans
        (List.Perm.swap _ _ _)

/-- After an insertion under key `k` the map is not empty and its first key is at most `k`. -/
theorem mapInsert_head_le (k : Int) (v : β) (m : List (Int × β)) :
    ∃ first rest, mapInsert k v m = first :: rest ∧ first.1 ≤ k := by
  cases m with
  | nil => exact ⟨(k, v), [], rfl, le_refl _⟩
  | cons hd tl =>
    obtain ⟨k', v'⟩ := hd
    simp only [mapInsert]
    split_ifs with h1 h2
    · exact ⟨_, _, rfl, le_refl _⟩
    · exact ⟨_, _, rfl, by simp [h2]⟩
    · exact ⟨_, _, rfl, by simp only; omega⟩

end MapInsert

namespace SingleShotTimer

variable {κ σ ε : Type}

/-! ## Facts about the scheduler -/

theorem wakeUp_callbacks (s : SingleShotTimer κ σ) : (wakeUp s).callbacks_ = s.callbacks_ := by
  unfold wakeUp; split <;> rfl

theorem wakeUp_world (s : SingleShotTimer κ σ) : (wakeUp s).world = s.world := by
  unfold wakeUp; split <;> rfl

theorem call_callbacks (now wait : Int) (c : κ) (s : SingleShotTimer κ σ) :
    (call now wait c s).callbacks_ = mapInsert (now + wait) [c] s.callbacks_ := by
  simp [call, wakeUp_callbacks]

theorem call_world (now wait : Int) (c : κ) (s : SingleShotTimer κ σ) :
    (call now wait c s).world = s.world := by
  simp [call, wakeUp_world]

/-- A call made while the worker is inside `sleep_for` leaves the worker there, with the same
wake-up time. -/
theorem call_workerState_of_sleeping (now wait wakeAt : Int) (c : κ) (s : SingleShotTimer κ σ)
    (h : s.workerState = .sleepingUntil wakeAt) :
    (call now wait c s).workerState = .sleepingUntil wakeAt := by
  simp [call, wakeUp, h]

/-- A call made while the worker waits on the monitor makes it run. -/
theorem call_workerState_of_waiting (now wait : Int) (c : κ) (s : SingleShotTimer κ σ)
    (h : s.workerState = .waitingOnMonitor) :
    (call now wait c s).workerState = .running := by
  simp [call, wakeUp, h]

/-- A second call resolving to the same deadline leaves the mapping as the first call left
it. -/
theorem call_same_deadline_dropped (now wait : Int) (c₁ c₂ : κ) (s : SingleShotTimer κ σ) :
    (call now wait c₂ (call now wait c₁ s)).callbacks_ = (call now wait c₁ s).callbacks_ := by
  simp [call_callbacks, mapInsert_twice]

theorem shouldCallbacksBeCalled_iff (t : Int) (s : SingleShotTimer κ σ) :
    shouldCallbacksBeCalled t s = true ↔
      ∃ d cbs rest, s.callbacks_ = (d, cbs) :: rest ∧ d ≤ t := by
  unfold shouldCallbacksBeCalled
  cases h : s.callbacks_ with
  | nil => simp
  | cons hd tl =>
    obtain ⟨d, cbs⟩ := hd
    simp

/-- C1 (evaluation at the failing input).  Two calls `call(100, A)`, `call(100, B)` made at
the same clock reading `0` through one specialisation of `call`, hence on one instance: the
entry for deadline `100` holds `A` only, because
`callbacks_.insert` does nothing when the key is present, and processing that deadline invokes
`A` and not `B`; afterwards the mapping is empty, so `B` is never invoked. -/
theorem same_deadline_second_callback_dropped :
    (callAll [(0, 100, MainCallback.A), (0, 100, MainCallback.B)]
        (staticInstance ([] : List MainCallback))).callbacks_ = [(100, [MainCallback.A])] ∧
    (run mainInvoke [(100, 100)]
        (callAll [(0, 100, MainCallback.A), (0, 100, MainCallback.B)]
          (staticInstance ([] : List MainCallback))))
      = .returned { callbacks_ := [], isRunning_ := true, workerState := .waitingOnMonitor,
                    world := [MainCallback.A], invoked := [MainCallback.A] } := by
  decide

/-- C10 (evaluation at the failing input).  Two calls through one specialisation of `call`,
both callbacks being passed as `std::function<void()>` objects, at clock reading `0`.  After
`call(3000, A)` the worker of the instance runs one pass of its loop and blocks in
`sleepFor(3000)`, that is until `3000`.  The later `call(10, D)` goes to the same instance: it
puts deadline `10` first in the mapping and calls `wakeUp`, but `notify_all` does not interrupt
`sleep_for`, so the worker stays asleep until `3000`, later than the earliest deadline `10` of
its mapping. -/
theorem earlier_deadline_does_not_wake_sleeping_worker :
    ((Process.pass mainInvoke Callable.stdFunction 0 0
        (Process.call Callable.stdFunction 0 3000 MainCallback.A
          (Process.initial ([] : List MainCallback)))).state?.bind
      (fun P => P.instances Callable.stdFunction))
      = some { callbacks_ := [(3000, [MainCallback.A])], isRunning_ := true,
               workerState := .sleepingUntil 3000, world := [], invoked := [] } ∧
    ((Process.pass mainInvoke Callable.stdFunction 0 0
        (Process.call Callable.stdFunction 0 3000 MainCallback.A
          (Process.initial ([] : List MainCallback)))).state?.bind
      (fun P => (Process.call Callable.stdFunction 0 10 MainCallback.D P).instances
        Callable.stdFunction))
      = some { callbacks_ := [(10, [MainCallback.D]), (3000, [MainCallback.A])],
               isRunning_ := true, workerState := .sleepingUntil 3000, world := [],
               invoked := [] } ∧
    (10 : Int) < 3000 := by
  decide

/-- The calls of `main` at clock reading `0`: the four lambdas have four closure types, so
there are four instances, each with one entry in its mapping, and none for any other callable
type.  After a first pass at reading `0` each worker sleeps until the deadline of its own
entry. -/
theorem main_calls_use_separate_instances :
    (Process.calls (mainCalls 0) (Process.initial ([] : List MainCallback))).instances
        (.lambda .A)
      = some { callbacks_ := [(3000, [MainCallback.A])], isRunning_ := true,
               workerState := .running, world := [], invoked := [] } ∧
    (Process.calls (mainCalls 0) (Process.initial ([] : List MainCallback))).instances
        (.lambda .B)
      = some { callbacks_ := [(100, [MainCallback.B])], isRunning_ := true,
               workerState := .running, world := [], invoked := [] } ∧
    (Process.calls (mainCalls 0) (Process.initial ([] : List MainCallback))).instances
        (.lambda .C)
      = some { callbacks_ := [(300, [MainCallback.C])], isRunning_ := true,
               workerState := .running, world := [], invoked := [] } ∧
    (Process.calls (mainCalls 0) (Process.initial ([] : List MainCallback))).instances
        (.lambda .D)
      = some { callbacks_ := [(10, [MainCallback.D])], isRunning_ := true,
               workerState := .running, world := [], invoked := [] } ∧
    (Process.calls (mainCalls 0) (Process.initial ([] : List MainCallback))).instances
        .stdFunction = none ∧
    ((Process.passes mainInvoke
        [(.lambda .A, 0, 0), (.lambda .B, 0, 0), (.lambda .C, 0, 0), (.lambda .D, 0, 0)]
        (Process.calls (mainCalls 0) (Process.initial ([] : List MainCallback)))).state?.bind
      (fun P => (P.instances (.lambda .D)).map (fun s => s.workerState)))
      = some (.sleepingUntil 10) ∧
    ((Process.passes mainInvoke
        [(.lambda .A, 0, 0), (.lambda .B, 0, 0), (.lambda .C, 0, 0), (.lambda .D, 0, 0)]
        (Process.calls (mainCalls 0) (Process.initial ([] : List MainCallback)))).state?.bind
      (fun P => (P.instances (.lambda .A)).map (fun s => s.workerState)))
      = some (.sleepingUntil 3000) := by
  decide

/-- C7 (counterexample).  `call(-5, A)` at clock reading `100` on the new instance is not
rejected: the mapping changes, it gets the entry with deadline `95`, and the next pass of the
loop invokes `A`. -/
theorem negative_delay_not_rejected :
    (call 100 (-5) MainCallback.A (staticInstance ([] : List MainCallback))).callbacks_
      ≠ (staticInstance ([] : List MainCallback) : SingleShotTimer MainCallback _).callbacks_ ∧
    (call 100 (-5) MainCallback.A (staticInstance ([] : List MainCallback))).callbacks_
      = [(95, [MainCallback.A])] ∧
    (run mainInvoke [(100, 100)]
        (call 100 (-5) MainCallback.A (staticInstance ([] : List MainCallback))))
      = .returned { callbacks_ := [], isRunning_ := true, workerState := .waitingOnMonitor,
                    world := [MainCallback.A], invoked := [MainCallback.A] } := by
  decide

/-- C7 (amended).  For every negative delay `d`, `call(d, callback)` made at clock reading
`now` is accepted like any other call: when no entry with deadline `now + d` is pending, the
mapping gets the entry `now + d ↦ [callback]` next to the entries it had, and since that
deadline is earlier than `now` the mapping is due (`shouldCallbacksBeCalled`) at every clock
reading from `now` on. -/
theorem negative_delay_creates_due_entry (now d : Int) (callback : κ) (s : SingleShotTimer κ σ)
    (hd : d < 0) (habsent : ∀ entry ∈ s.callbacks_, entry.1 ≠ now + d) :
    (now + d, [callback]) ∈ (call now d callback s).callbacks_ ∧
    (call now d callback s).callbacks_.Perm ((now + d, [callback]) :: s.callbacks_) ∧
    now + d < now ∧
    ∀ t, now ≤ t → shouldCallbacksBeCalled t (call now d callback s) = true := by
  have hperm := mapInsert_perm_of_absent (now + d) [callback] s.callbacks_ habsent
  refine ⟨?_, ?_, by omega, ?_⟩
  · rw [call_callbacks]
    exact hperm.symm.subset (List.mem_cons_self _ _)
  · rw [call_callbacks]
    exact hperm
  · intro t ht
    rw [shouldCallbacksBeCalled_iff]
    obtain ⟨first, rest, hm, hle⟩ := mapInsert_head_le (now + d) [callback] s.callbacks_
    exact ⟨first.1, first.2, rest, by rw [call_callbacks, hm], by omega⟩

/-- C7 (amended) at `call(-5, A)`, clock reading `100`, new instance. -/
theorem negative_delay_creates_due_entry_witness :
    ((-5 : Int) < 0) ∧
    (100 + (-5), [MainCallback.A]) ∈
      (call 100 (-5) MainCallback.A (staticInstance ([] : List MainCallback))).callbacks_ :=
  ⟨by decide,
   (negative_delay_creates_due_entry 100 (-5) MainCallback.A
      (staticInstance ([] : List MainCallback)) (by decide)
      (by intro entry h; simp [staticInstance] at h)).1⟩

/-! ## Invoking the callbacks of one entry -/

/-- The callbacks whose invocation began are the first ones of the list. -/
theorem invokeEach_invoked_leading (invoke : κ → σ → σ × Option ε) (cbs : List κ) (w : σ) :
    (invokeEach invoke cbs w).2.1 <+: cbs := by
  induction cbs generalizing w with
  | nil => simp [invokeEach]
  | cons c cs ih =>
    unfold invokeEach
    split
    · exact ⟨cs, rfl⟩
    · next w' h => exact (List.prefix_cons_inj c).mpr (ih w')

/-- When no callback raises, every callback of the list is invoked. -/
theorem invokeEach_invoked_of_returned (invoke : κ → σ → σ × Option ε) (cbs : List κ) (w : σ)
    (h : (invokeEach invoke cbs w).2.2 = none) : (invokeEach invoke cbs w).2.1 = cbs := by
  induction cbs generalizing w with
  | nil => simp [invokeEach]
  | cons c cs ih =>
    unfold invokeEach at h ⊢
    split at h
    · simp at h
    · next w' hc =>
      simp only [hc]
      simp only at h
      rw [ih w' h]

/-- The loop over `pre ++ c :: post` when the callbacks of `pre` return and `c` raises: it
ends at `c`. -/
theorem invokeEach_raise (invoke : κ → σ → σ × Option ε) (pre post : List κ) (c : κ)
    (w w₁ w₂ : σ) (e : ε)
    (hpre : invokeEach invoke pre w = (w₁, pre, none))
    (hc : invoke c w₁ = (w₂, some e)) :
    invokeEach invoke (pre ++ c :: post) w = (w₂, pre ++ [c], some e) := by
  induction pre generalizing w with
  | nil =>
    simp only [invokeEach, Prod.mk.injEq, and_true] at hpre
    subst hpre
    simp [invokeEach, hc]
  | cons p ps ih =>
    simp only [List.cons_append]
    unfold invokeEach at hpre ⊢
    split at hpre
    · simp at hpre
    · next w' hp =>
      simp only [hp]
      simp only [Prod.mk.injEq, List.cons.injEq, true_and] at hpre
      have hps : invokeEach invoke ps w' = (w₁, ps, none) := by
        apply Prod.ext
        · exact hpre.1
        · apply Prod.ext
          · exact hpre.2.1
          · exact hpre.2.2
      rw [ih w' hps]

/-! ## One entry, one pass -/

theorem processCurrentCalbacks_of_returned (invoke : κ → σ → σ × Option ε)
    (s : SingleShotTimer κ σ) (d : Int) (cbs : List κ) (rest : List (Int × List κ))
    (hm : s.callbacks_ = (d, cbs) :: rest)
    (hok : (invokeEach invoke cbs s.world).2.2 = none) :
    processCurrentCalbacks invoke s =
      .returned { s with callbacks_ := rest,
                         world := (invokeEach invoke cbs s.world).1,
                         invoked := s.invoked ++ cbs } := by
  unfold processCurrentCalbacks
  rw [hm]
  simp only [hok, invokeEach_invoked_of_returned invoke cbs s.world hok]

theorem processCurrentCalbacks_of_raised (invoke : κ → σ → σ × Option ε)
    (s : SingleShotTimer κ σ) (d : Int) (cbs : List κ) (rest : List (Int × List κ)) (e : ε)
    (hm : s.callbacks_ = (d, cbs) :: rest)
    (hraise : (invokeEach invoke cbs s.world).2.2 = some e) :
    processCurrentCalbacks invoke s =
      .raised e { s with world := (invokeEach invoke cbs s.world).1,
                         invoked := s.invoked ++ (invokeEach invoke cbs s.world).2.1 } := by
  unfold processCurrentCalbacks
  rw [hm]
  simp only [hraise]

theorem runBody_of_not_due (invoke : κ → σ → σ × Option ε) (t₁ t₂ : Int)
    (s : SingleShotTimer κ σ) (h : shouldCallbacksBeCalled t₁ s = false) :
    runBody invoke t₁ t₂ s =
      .returned (match s.callbacks_ with
        | [] => sleep s
        | first :: _ => sleepFor t₂ (first.1 - t₂) s) := by
  unfold runBody
  simp only [h, Bool.false_eq_true, if_false]
  cases s.callbacks_ <;> rfl

theorem runBody_of_due_returned (invoke : κ → σ → σ × Option ε) (t₁ t₂ : Int)
    (s : SingleShotTimer κ σ) (d : Int) (cbs : List κ) (rest : List (Int × List κ))
    (hm : s.callbacks_ = (d, cbs) :: rest) (hd : d ≤ t₁)
    (hok : (invokeEach invoke cbs s.world).2.2 = none) :
    ∃ s', runBody invoke t₁ t₂ s = .returned s' ∧ s'.callbacks_ = rest ∧
      s'.invoked = s.invoked ++ cbs ∧ s'.isRunning_ = s.isRunning_ ∧
      s'.world = (invokeEach invoke cbs s.world).1 := by
  have hdue : shouldCallbacksBeCalled t₁ s = true :=
    (shouldCallbacksBeCalled_iff t₁ s).mpr ⟨d, cbs, rest, hm, hd⟩
  unfold runBody
  simp only [hdue, if_true, processCurrentCalbacks_of_returned invoke s d cbs rest hm hok]
  cases rest with
  | nil => exact ⟨_, rfl, rfl, rfl, rfl, rfl⟩
  | cons hd' tl => exact ⟨_, rfl, rfl, rfl, rfl, rfl⟩

theorem runBody_of_due_raised (invoke : κ → σ → σ × Option ε) (t₁ t₂ : Int)
    (s : SingleShotTimer κ σ) (d : Int) (cbs : List κ) (rest : List (Int × List κ)) (e : ε)
    (hm : s.callbacks_ = (d, cbs) :: rest) (hd : d ≤ t₁)
    (hraise : (invokeEach invoke cbs s.world).2.2 = some e) :
    runBody invoke t₁ t₂ s =
      .raised e { s with world := (invokeEach invoke cbs s.world).1,
                         invoked := s.invoked ++ (invokeEach invoke cbs s.world).2.1 } := by
  have hdue : shouldCallbacksBeCalled t₁ s = true :=
    (shouldCallbacksBeCalled_iff t₁ s).mpr ⟨d, cbs, rest, hm, hd⟩
  unfold runBody
  simp only [hdue, if_true, processCurrentCalbacks_of_raised invoke s d cbs rest e hm hraise]

/-! ## When callbacks are invoked -/

/-- C4.  A pass of the loop of `run` at clock reading `t₁` invokes callbacks only when the
mapping is not empty and its earliest deadline is at most `t₁`, and then only callbacks of that
earliest entry, in their order: `shouldCallbacksBeCalled` is true exactly in that case; the
pass always ends in a state, whose `invoked` is the former one followed by `newly`, and a
non-empty `newly` is a leading part of the callbacks of the first entry, whose deadline is at
most `t₁`.  When the earliest deadline is at most `t₁` (equality included) and its callbacks
return, the pass invokes all of them.  After `call(0, callback)` at reading `now` the mapping
is due at every reading from `now` on. -/
theorem callbacks_invoked_only_when_due (invoke : κ → σ → σ × Option ε) (t₁ t₂ : Int)
    (s : SingleShotTimer κ σ) :
    (shouldCallbacksBeCalled t₁ s = true ↔
      ∃ d cbs rest, s.callbacks_ = (d, cbs) :: rest ∧ d ≤ t₁) ∧
    (∃ s' newly, (runBody invoke t₁ t₂ s).state? = some s' ∧
      s'.invoked = s.invoked ++ newly ∧
      (newly ≠ [] → ∃ d cbs rest, s.callbacks_ = (d, cbs) :: rest ∧ d ≤ t₁ ∧ newly <+: cbs)) ∧
    (∀ d cbs rest, s.callbacks_ = (d, cbs) :: rest → d ≤ t₁ →
      (invokeEach invoke cbs s.world).2.2 = none →
      ∃ s', runBody invoke t₁ t₂ s = .returned s' ∧ s'.invoked = s.invoked ++ cbs) ∧
    (∀ now callback, now ≤ t₁ →
      shouldCallbacksBeCalled t₁ (call now 0 callback s) = true) := by
  refine ⟨shouldCallbacksBeCalled_iff t₁ s, ?_, ?_, ?_⟩
  · cases hdue : shouldCallbacksBeCalled t₁ s with
    | false =>
      have hb := runBody_of_not_due invoke t₁ t₂ s hdue
      cases hc : s.callbacks_ with
      | nil =>
        rw [hc] at hb
        exact ⟨sleep s, [], by rw [hb]; rfl, by simp [sleep], fun h => absurd rfl h⟩
      | cons first tl =>
        rw [hc] at hb
        exact ⟨sleepFor t₂ (first.1 - t₂) s, [], by rw [hb]; rfl, by simp [sleepFor],
          fun h => absurd rfl h⟩
    | true =>
      obtain ⟨d, cbs, rest, hm, hd⟩ := (shouldCallbacksBeCalled_iff t₁ s).mp hdue
      cases hr : (invokeEach invoke cbs s.world).2.2 with
      | none =>
        obtain ⟨s', hs', _, hinv, _⟩ :=
          runBody_of_due_returned invoke t₁ t₂ s d cbs rest hm hd hr
        exact ⟨s', cbs, by rw [hs']; rfl, hinv,
          fun _ => ⟨d, cbs, rest, hm, hd, List.prefix_refl _⟩⟩
      | some e =>
        refine ⟨{ s with world := (invokeEach invoke cbs s.world).1,
                         invoked := s.invoked ++ (invokeEach invoke cbs s.world).2.1 },
          (invokeEach invoke cbs s.world).2.1, ?_, rfl,
          fun _ => ⟨d, cbs, rest, hm, hd, invokeEach_invoked_leading invoke cbs s.world⟩⟩
        rw [runBody_of_due_raised invoke t₁ t₂ s d cbs rest e hm hd hr]
        rfl
  · intro d cbs rest hm hd hr
    obtain ⟨s', hs', _, hinv, _⟩ := runBody_of_due_returned invoke t₁ t₂ s d cbs rest hm hd hr
    exact ⟨s', hs', hinv⟩
  · intro now callback hnow
    rw [shouldCallbacksBeCalled_iff]
    obtain ⟨first, rest, hm, hle⟩ := mapInsert_head_le (now + 0) [callback] s.callbacks_
    exact ⟨first.1, first.2, rest, by rw [call_callbacks, hm], by omega⟩

/-- C4 on the mapping `10 ↦ [D], 100 ↦ [B]` at clock reading `10`, the deadline of `D`: the
pass invokes `D`. -/
theorem callbacks_invoked_only_when_due_witness :
    ((10 : Int) ≤ 10) ∧
    ∃ s', runBody mainInvoke 10 10
        ({ callbacks_ := [(10, [MainCallback.D]), (100, [MainCallback.B])], isRunning_ := true,
           workerState := .running, world := [], invoked := [] } :
          SingleShotTimer MainCallback (List MainCallback)) = .returned s' ∧
      s'.invoked = [] ++ [MainCallback.D] :=
  ⟨by decide,
   (callbacks_invoked_only_when_due mainInvoke 10 10
      ({ callbacks_ := [(10, [MainCallback.D]), (100, [MainCallback.B])], isRunning_ := true,
         workerState := .running, world := [], invoked := [] } :
        SingleShotTimer MainCallback (List MainCallback))).2.2.1
      10 [MainCallback.D] [(100, [MainCallback.B])] rfl (by decide) rfl⟩

/-! ## A callback that raises -/

/-- C6 (counterexample).  `call(100, B)` and `call(300, C)` at clock reading `0` through one
specialisation of `call`, where `B` throws: the pass at reading `100` invokes `B`, the exception leaves `processCurrentCalbacks`
and `run`, the entry of deadline `100` is still in the mapping, and `C` is not invoked
although a reading `300` follows.  In an entry holding `B` and `C`, processing stops at `B`
and `C` is not invoked. -/
theorem raising_callback_stops_the_loop :
    run (mainInvokeRaising .B) [(100, 100), (300, 300)]
        (callAll [(0, 100, MainCallback.B), (0, 300, MainCallback.C)] (staticInstance []))
      = .raised () { callbacks_ := [(100, [MainCallback.B]), (300, [MainCallback.C])],
                     isRunning_ := true, workerState := .running,
                     world := [MainCallback.B], invoked := [MainCallback.B] } ∧
    processCurrentCalbacks (mainInvokeRaising .B)
        { callbacks_ := [(100, [MainCallback.B, MainCallback.C])], isRunning_ := true,
          workerState := .running, world := [], invoked := [] }
      = .raised () { callbacks_ := [(100, [MainCallback.B, MainCallback.C])],
                     isRunning_ := true, workerState := .running,
                     world := [MainCallback.B], invoked := [MainCallback.B] } := by
  decide

/-- C6 (amended).  With callbacks modelled as possibly-failing procedures, let the earliest
entry hold the callbacks `cbs`.  If `cbs = pre ++ c :: post`, the callbacks of `pre` return and
`c` raises `e`, then `processCurrentCalbacks` ends with `e` after invoking `pre` and `c` in
order: the callbacks of `post` are not invoked, the mapping is unchanged (the entry is not
removed), and `e` leaves `run` as well, so no later pass takes place.  If no callback of `cbs`
raises, `processCurrentCalbacks` invokes all of `cbs` in order and removes exactly that entry,
leaving the other entries as they were. -/
theorem raising_callback_ends_processing (invoke : κ → σ → σ × Option ε)
    (s : SingleShotTimer κ σ) (d : Int) (cbs : List κ) (rest : List (Int × List κ))
    (hm : s.callbacks_ = (d, cbs) :: rest) :
    (∀ pre c post w₁ w₂ e, cbs = pre ++ c :: post →
      invokeEach invoke pre s.world = (w₁, pre, none) → invoke c w₁ = (w₂, some e) →
      (∃ s', processCurrentCalbacks invoke s = .raised e s' ∧
        s'.callbacks_ = (d, cbs) :: rest ∧ s'.invoked = s.invoked ++ (pre ++ [c]) ∧
        s'.world = w₂) ∧
      (∀ t₁ t₂ readings, s.isRunning_ = true → d ≤ t₁ →
        ∃ s', run invoke ((t₁, t₂) :: readings) s = .raised e s' ∧
          s'.callbacks_ = (d, cbs) :: rest ∧ s'.invoked = s.invoked ++ (pre ++ [c]))) ∧
    ((invokeEach invoke cbs s.world).2.2 = none →
      ∃ s', processCurrentCalbacks invoke s = .returned s' ∧
        s'.callbacks_ = rest ∧ s'.invoked = s.invoked ++ cbs) := by
  constructor
  · intro pre c post w₁ w₂ e hcbs hpre hc
    have hall := invokeEach_raise invoke pre post c s.world w₁ w₂ e hpre hc
    rw [← hcbs] at hall
    have hraise : (invokeEach invoke cbs s.world).2.2 = some e := by rw [hall]
    constructor
    · refine ⟨_, processCurrentCalbacks_of_raised invoke s d cbs rest e hm hraise, hm, ?_, ?_⟩
      · simp only [hall]
      · simp only [hall]
    · intro t₁ t₂ readings hrun hd
      have hm' : ({ s with workerState := .running } : SingleShotTimer κ σ).callbacks_
          = (d, cbs) :: rest := hm
      have hbody := runBody_of_due_raised invoke t₁ t₂ { s with workerState := .running }
        d cbs rest e hm' hd hraise
      refine ⟨{ s with workerState := .running, world := (invokeEach invoke cbs s.world).1,
                       invoked := s.invoked ++ (invokeEach invoke cbs s.world).2.1 },
        ?_, hm, ?_⟩
      · simp only [run]
        rw [if_pos hrun, hbody]
      · show s.invoked ++ (invokeEach invoke cbs s.world).2.1 = _
        rw [hall]
  · intro hok
    exact ⟨_, processCurrentCalbacks_of_returned invoke s d cbs rest hm hok, rfl, rfl⟩

/-- C6 (amended) on the mapping `100 ↦ [B], 300 ↦ [C]` with `B` raising. -/
theorem raising_callback_ends_processing_witness :
    ∃ s', processCurrentCalbacks (mainInvokeRaising .B)
        ({ callbacks_ := [(100, [MainCallback.B]), (300, [MainCallback.C])],
           isRunning_ := true, workerState := .running, world := [], invoked := [] } :
          SingleShotTimer MainCallback (List MainCallback)) = .raised () s' ∧
      s'.callbacks_ = (100, [MainCallback.B]) :: [(300, [MainCallback.C])] ∧
      s'.invoked = [] ++ ([] ++ [MainCallback.B]) ∧
      s'.world = [MainCallback.B] :=
  ((raising_callback_ends_processing (mainInvokeRaising .B)
      ({ callbacks_ := [(100, [MainCallback.B]), (300, [MainCallback.C])],
         isRunning_ := true, workerState := .running, world := [], invoked := [] } :
        SingleShotTimer MainCallback (List MainCallback))
      100 [MainCallback.B] [(300, [MainCallback.C])] rfl).1
    [] MainCallback.B [] [] [MainCallback.B] () rfl rfl rfl).1

/-! ## Distinct deadlines -/

end SingleShotTimer

end timer
